import Mathlib

/-!
Verification development for the TomograPy Siddon module
(`siddon/siddon.py`).

The geometry helpers of the module (`intersect_cube`, `initialize_raytracing`,
`compare`, `max3`, `min3`, `sign`, `map_borders`, `rotation_matrix`,
`projector`, `backprojector`) are embedded below.  All numpy operations in
those functions are elementwise over the pixel/image axes, so each function is
embedded as the scalar computation performed for one ray (one pixel of one
image); the voxel-grid metadata is a per-axis triple.

Numpy float arithmetic is modelled by the type `Siddon.FV`: an exact rational
magnitude extended with `+inf`, `-inf` and `nan`, with IEEE-754 rules for
division by zero, arithmetic on infinities, and comparisons involving `nan`
(always false).  Rounding is idealized away (exact rationals); the claims
checked here concern the branch structure and the propagation of the
non-finite values, which rounding does not affect.
-/

namespace Siddon

open Matrix

/-- Idealized IEEE-style extended value: an exact rational, `+inf`, `-inf`
or `nan`.  This is the carrier used to embed numpy float arrays. -/
inductive FV where
  | fin : ℚ → FV
  | pinf : FV
  | ninf : FV
  | nan : FV
deriving DecidableEq, Repr

/-- IEEE division of two finite values (numpy `a / b`): division by zero
yields a signed infinity, `0 / 0` yields `nan`. -/
def fdiv (a b : ℚ) : FV :=
  if b ≠ 0 then FV.fin (a / b)
  else if 0 < a then FV.pinf
  else if a < 0 then FV.ninf
  else FV.nan

/-- IEEE strict less-than (numpy `x < y`): any comparison with `nan` is
false. -/
def flt : FV → FV → Bool
  | FV.fin a, FV.fin b => decide (a < b)
  | FV.fin _, FV.pinf => true
  | FV.fin _, FV.ninf => false
  | FV.fin _, FV.nan => false
  | FV.pinf, _ => false
  | FV.ninf, FV.fin _ => true
  | FV.ninf, FV.pinf => true
  | FV.ninf, FV.ninf => false
  | FV.ninf, FV.nan => false
  | FV.nan, _ => false

/-- IEEE equality test (numpy `x == y`): `nan` compares unequal to
everything. -/
def feq : FV → FV → Bool
  | FV.fin a, FV.fin b => decide (a = b)
  | FV.pinf, FV.pinf => true
  | FV.ninf, FV.ninf => true
  | _, _ => false

/-- Numpy `x >= y` as used in `max3`. -/
def fge (x y : FV) : Bool := flt y x || feq x y

/-- Numpy `x <= y` as used in `min3`. -/
def fle (x y : FV) : Bool := flt x y || feq x y

/-- IEEE addition. -/
def fadd : FV → FV → FV
  | FV.fin a, FV.fin b => FV.fin (a + b)
  | FV.fin _, FV.pinf => FV.pinf
  | FV.fin _, FV.ninf => FV.ninf
  | FV.pinf, FV.fin _ => FV.pinf
  | FV.ninf, FV.fin _ => FV.ninf
  | FV.pinf, FV.pinf => FV.pinf
  | FV.ninf, FV.ninf => FV.ninf
  | FV.pinf, FV.ninf => FV.nan
  | FV.ninf, FV.pinf => FV.nan
  | FV.nan, _ => FV.nan
  | _, FV.nan => FV.nan

/-- IEEE negation. -/
def fneg : FV → FV
  | FV.fin a => FV.fin (-a)
  | FV.pinf => FV.ninf
  | FV.ninf => FV.pinf
  | FV.nan => FV.nan

/-- IEEE subtraction. -/
def fsub (x y : FV) : FV := fadd x (fneg y)

/-- IEEE multiplication: `0 * inf = nan`. -/
def fmul : FV → FV → FV
  | FV.fin a, FV.fin b => FV.fin (a * b)
  | FV.fin a, FV.pinf => if 0 < a then FV.pinf else if a < 0 then FV.ninf else FV.nan
  | FV.fin a, FV.ninf => if 0 < a then FV.ninf else if a < 0 then FV.pinf else FV.nan
  | FV.pinf, FV.fin b => if 0 < b then FV.pinf else if b < 0 then FV.ninf else FV.nan
  | FV.ninf, FV.fin b => if 0 < b then FV.ninf else if b < 0 then FV.pinf else FV.nan
  | FV.pinf, FV.pinf => FV.pinf
  | FV.pinf, FV.ninf => FV.ninf
  | FV.ninf, FV.pinf => FV.ninf
  | FV.ninf, FV.ninf => FV.pinf
  | FV.nan, _ => FV.nan
  | _, FV.nan => FV.nan

/-- IEEE division of an extended value by a finite value: an infinity
divided by zero keeps its sign (the rational zero stands for `+0.0`). -/
def fdivF : FV → ℚ → FV
  | FV.fin a, c => fdiv a c
  | FV.pinf, c => if c < 0 then FV.ninf else FV.pinf
  | FV.ninf, c => if c < 0 then FV.pinf else FV.ninf
  | FV.nan, _ => FV.nan

/-- IEEE absolute value (numpy `np.abs`). -/
def fabs : FV → FV
  | FV.fin a => FV.fin |a|
  | FV.pinf => FV.pinf
  | FV.ninf => FV.pinf
  | FV.nan => FV.nan

/-- Embeds `sign` (siddon.py): `-1` where negative, `1` where positive, `0`
where zero.  The source writes into an uninitialized `np.empty` array, so a
`nan` input leaves the entry unset; it is modelled as `0` here and no claim
depends on that case. -/
def sign : FV → Int
  | FV.fin a => if a < 0 then -1 else if 0 < a then 1 else 0
  | FV.pinf => 1
  | FV.ninf => -1
  | FV.nan => 0

/-- Embeds numpy `.astype(np.uint32)` on a non-negative float (it is applied
to absolute values in `initialize_raytracing`, where truncation toward zero
coincides with the floor): the value is truncated and wrapped modulo `2^32`.
The cast of a non-finite value is unspecified in C; it is modelled as `0`
and no claim depends on that case. -/
def toU32 : FV → ℕ
  | FV.fin a => (Int.floor a).toNat % 2 ^ 32
  | _ => 0

/-- Voxel-grid metadata, per axis: the derived border coordinates
(`Mmin`/`Mmax`), physical shape (`PSHAPE`) and cell size (`CDELT`) read from
the map header by `intersect_cube` and `initialize_raytracing`. -/
structure Geom where
  Mmin : Fin 3 → ℚ
  Mmax : Fin 3 → ℚ
  pshape : Fin 3 → ℚ
  cdelt : Fin 3 → ℚ

/-- One ray: viewpoint position `M` and direction vector `u` (one pixel of
one image, the elementwise slice of the numpy arrays). -/
structure Ray where
  M : Fin 3 → ℚ
  u : Fin 3 → ℚ

/-- Embeds `p[..., t, i] = pshape[i] / u[..., t, i]` (intersect_cube). -/
def pF (g : Geom) (r : Ray) (k : Fin 3) : FV := fdiv (g.pshape k) (r.u k)

/-- Embeds `a1[..., t, i] = (Mmin[i] - M[i]) / u[..., t, i]`
(intersect_cube). -/
def a1F (g : Geom) (r : Ray) (k : Fin 3) : FV := fdiv (g.Mmin k - r.M k) (r.u k)

/-- Embeds `an[..., t, i] = (Mmax[i] - M[i]) / u[..., t, i]`
(intersect_cube). -/
def anF (g : Geom) (r : Ray) (k : Fin 3) : FV := fdiv (g.Mmax k - r.M k) (r.u k)

/-- Embeds `compare` (siddon.py): `w = a1 < an`, `imin` is `a1` where `w`
else `an`, `imax` is `an` where `w` else `a1`. -/
def compare (a1 an : FV) : FV × FV :=
  if flt a1 an then (a1, an) else (an, a1)

/-- Per-axis ordered minimum: `Imin` from `compare(a1, an)`. -/
def iminF (g : Geom) (r : Ray) (k : Fin 3) : FV :=
  (compare (a1F g r k) (anF g r k)).1

/-- Per-axis ordered maximum: `Imax` from `compare(a1, an)`. -/
def imaxF (g : Geom) (r : Ray) (k : Fin 3) : FV :=
  (compare (a1F g r k) (anF g r k)).2

/-- Embeds `max3` (siddon.py): starts from `z`, overwrites with `x` where
`(x > y) * (x > z)`, then with `y` where `(y >= x) * (y > z)`; the later
write wins, giving this if-chain. -/
def max3 (x y z : FV) : FV :=
  if fge y x && flt z y then y
  else if flt y x && flt z x then x
  else z

/-- Embeds `min3` (siddon.py): starts from `z`, overwrites with `x` where
`(x < y) * (x < z)`, then with `y` where `(y <= x) * (y < z)`; the later
write wins, giving this if-chain. -/
def min3 (x y z : FV) : FV :=
  if fle y x && flt y z then y
  else if flt x y && flt x z then x
  else z

/-- Embeds `amin = max3(Imin[..., 0], Imin[..., 1], Imin[..., 2])`
(intersect_cube). -/
def aminF (g : Geom) (r : Ray) : FV :=
  max3 (iminF g r 0) (iminF g r 1) (iminF g r 2)

/-- Embeds `amax = min3(Imax[..., 0], Imax[..., 1], Imax[..., 2])`
(intersect_cube). -/
def amaxF (g : Geom) (r : Ray) : FV :=
  min3 (imaxF g r 0) (imaxF g r 1) (imaxF g r 2)

/-- Embeds `intersect_cube` (siddon.py): returns
`(flag, p, a1, amin)` with `flag = amin < amax`. -/
def intersect_cube (g : Geom) (r : Ray) :
    Bool × (Fin 3 → FV) × (Fin 3 → FV) × FV :=
  (flt (aminF g r) (amaxF g r), pF g r, a1F g r, aminF g r)

/-- Embeds `e[..., t, k] = M[k] + amin[..., t] * u[..., t, k]`
(initialize_raytracing): the ray coordinate at the entry of the map. -/
def eF (r : Ray) (amin : FV) (k : Fin 3) : FV :=
  fadd (FV.fin (r.M k)) (fmul amin (FV.fin (r.u k)))

/-- Embeds `update = sign(e)` (initialize_raytracing).  Note the source
takes the sign of the entry point `e`, not of the direction `u`. -/
def updateF (r : Ray) (amin : FV) (k : Fin 3) : Int :=
  sign (eF r amin k)

/-- Embeds the voxel-index computation of `initialize_raytracing`:
`iv = abs((e - Mmin)/cdelt).astype(uint32) - abs((e - Mmin)/pshape).astype(uint32)`
with uint32 wrap-around subtraction. -/
def ivF (g : Geom) (r : Ray) (amin : FV) (k : Fin 3) : ℕ :=
  let t1 := toU32 (fabs (fdivF (fsub (eF r amin k) (FV.fin (g.Mmin k))) (g.cdelt k)))
  let t2 := toU32 (fabs (fdivF (fsub (eF r amin k) (FV.fin (g.Mmin k))) (g.pshape k)))
  (t1 + (2 ^ 32 - t2)) % 2 ^ 32

/-- Embeds `next = iv + (update + 1) / 2.` followed by
`next[update == 0.] = np.inf` (initialize_raytracing). -/
def nextF (g : Geom) (r : Ray) (amin : FV) (k : Fin 3) : FV :=
  if updateF r amin k = 0 then FV.pinf
  else FV.fin ((ivF g r amin k : ℚ) + ((updateF r amin k : ℚ) + 1) / 2)

/-- Embeds `D[..., k] = next[..., k] * p[..., k] + a1[..., k] - amin`
followed by `D[np.isnan(D)] = np.inf` (initialize_raytracing). -/
def DF (g : Geom) (r : Ray) (p a1 : Fin 3 → FV) (amin : FV) (k : Fin 3) : FV :=
  let d := fsub (fadd (fmul (nextF g r amin k) (p k)) (a1 k)) amin
  if d = FV.nan then FV.pinf else d

/-- Embeds `initialize_raytracing` (siddon.py): returns `(update, iv, D)`.
The name is shortened from the source's `initialize_raytracing`. -/
def init_raytracing (g : Geom) (r : Ray) (p a1 : Fin 3 → FV) (amin : FV) :
    (Fin 3 → Int) × (Fin 3 → ℕ) × (Fin 3 → FV) :=
  (fun k => updateF r amin k, fun k => ivF g r amin k, fun k => DF g r p a1 amin k)

/-- Map header for `map_borders`: the per-axis input keywords `CDELT`,
`CRPIX`, `NAXIS` and the slots for the derived keywords `PSHAPE`, `Mmin`,
`Mmax` written back into the header. -/
structure MapHeader where
  cdelt : Fin 3 → ℚ
  crpix : Fin 3 → ℚ
  naxis : Fin 3 → ℚ
  pshape : Fin 3 → ℚ
  Mmin : Fin 3 → ℚ
  Mmax : Fin 3 → ℚ

/-- Embeds `map_borders` (siddon.py): `pshape = cdelt * naxis`,
`Mmin = -crpix * cdelt`, `Mmax = Mmin + pshape`, stored in the header. -/
def map_borders (h : MapHeader) : MapHeader :=
  let pshape := fun k => h.cdelt k * h.naxis k
  let Mmin := fun k => -h.crpix k * h.cdelt k
  let Mmax := fun k => Mmin k + pshape k
  { h with pshape := pshape, Mmin := Mmin, Mmax := Mmax }

/-- The two array dtypes supported by the generated kernels. -/
inductive Dtype where
  | f32 : Dtype
  | f64 : Dtype
deriving DecidableEq, Repr

/-- An array as seen by `projector`/`backprojector`: its dtype and its
contents. -/
structure PArr where
  dtype : Dtype
  vals : List ℚ
deriving DecidableEq, Repr

/-- The message of the `ValueError` raised on a dtype mismatch. -/
def dtypeErr : String :=
  "data and cube map should have the same data-type"

/-- Embeds `projector` (siddon.py): the dtype guard runs before the
dispatch to the generated C traversal, which is abstracted as the `kern`
argument.  The result models the raised error (if any) together with the
post-call contents of `data` and `cube`; a Python `raise` leaves both
arrays untouched, and on success the C kernel updates `data` in place. -/
def projector (kern : PArr → PArr → PArr) (data cube : PArr) :
    Option String × PArr × PArr :=
  if data.dtype ≠ cube.dtype then
    (some dtypeErr, data, cube)
  else
    (none, kern data cube, cube)

/-- Embeds `backprojector` (siddon.py): same guard as `projector`; on
success the C kernel updates `cube` in place. -/
def backprojector (kern : PArr → PArr → PArr) (data cube : PArr) :
    Option String × PArr × PArr :=
  if data.dtype ≠ cube.dtype then
    (some dtypeErr, data, cube)
  else
    (none, data, kern data cube)

/-- Embeds `rotation_matrix` (siddon.py).  The source computes the six
cosines/sines with `np.cos`/`np.sin` and fills the matrix; the definition
takes those six values as arguments so that it stays computable, and the
theorems instantiate them with `Real.cos`/`Real.sin` of the three angles. -/
def rotation_matrix (cosln sinln coslt sinlt cosrl sinrl : ℝ) :
    Matrix (Fin 3) (Fin 3) ℝ :=
  !![-cosln * coslt, -sinln * cosrl - cosln * sinlt * sinrl,
       sinln * sinrl - cosln * sinlt * cosrl;
     -sinln * coslt, cosln * cosrl - sinln * sinlt * sinrl,
       -cosln * sinrl - sinln * sinlt * cosrl;
     -sinlt, coslt * sinrl, coslt * cosrl]

/-- Rotation about the third axis, by the cosine/sine pair `(c, s)`: the
longitude factor of `rotation_matrix`. -/
def rotZ (c s : ℝ) : Matrix (Fin 3) (Fin 3) ℝ :=
  !![c, -s, 0; s, c, 0; 0, 0, 1]

/-- Latitude factor of `rotation_matrix`: an orthogonal matrix with
determinant `-1` (it combines the latitude rotation with the reflection
that points the line of sight back toward the origin). -/
def rotY (c s : ℝ) : Matrix (Fin 3) (Fin 3) ℝ :=
  !![-c, 0, -s; 0, 1, 0; -s, 0, c]

/-- Rotation about the first axis: the roll factor of `rotation_matrix`. -/
def rotX (c s : ℝ) : Matrix (Fin 3) (Fin 3) ℝ :=
  !![1, 0, 0; 0, c, -s; 0, s, c]

/-- Concrete data array used by the dtype-mismatch witness. -/
def dataW : PArr := ⟨Dtype.f32, [1, 2]⟩

/-- Concrete cube array used by the dtype-mismatch witness. -/
def cubeW : PArr := ⟨Dtype.f64, [3]⟩

/-- Modelled from the spec: the traversal kernels (`siddon_*`, generated C
extensions imported from `_C_siddon*`) are not under `src/`; following
spec sections 4.6 and 4.7, projection is the linear map that accumulates,
for each ray, the grid values weighted by the per-(ray, voxel) segment
length, here the abstract weight matrix `w`. -/
def project (nr nv : ℕ) (w : Fin nr → Fin nv → ℚ) (x : Fin nv → ℚ) :
    Fin nr → ℚ :=
  fun r => ∑ v : Fin nv, w r v * x v

/-- Modelled from the spec: adjoint of `project` per spec section 4.7,
scattering each ray value into the grid with the same segment-length
weights `w`. -/
def backproject (nr nv : ℕ) (w : Fin nr → Fin nv → ℚ) (y : Fin nr → ℚ) :
    Fin nv → ℚ :=
  fun v => ∑ r : Fin nr, w r v * y r

/-- Euclidean inner product of two vectors. -/
def dotv (n : ℕ) (a b : Fin n → ℚ) : ℚ := ∑ i : Fin n, a i * b i

/-- Spec-side per-axis entry parameter, written from the claim:
`a1_k = (Mmin_k - M_k) / u_k` as exact rational arithmetic (used only for
rays with `u_k` nonzero on every axis). -/
def a1Spec (g : Geom) (r : Ray) (k : Fin 3) : ℚ := (g.Mmin k - r.M k) / r.u k

/-- Spec-side per-axis exit parameter, written from the claim:
`an_k = (Mmax_k - M_k) / u_k`. -/
def anSpec (g : Geom) (r : Ray) (k : Fin 3) : ℚ := (g.Mmax k - r.M k) / r.u k

/-- Spec-side overall entry parameter, written from the claim: the maximum
over the three axes of the per-axis minima. -/
def entrySpec (g : Geom) (r : Ray) : ℚ :=
  max (min (a1Spec g r 0) (anSpec g r 0))
    (max (min (a1Spec g r 1) (anSpec g r 1)) (min (a1Spec g r 2) (anSpec g r 2)))

/-- Spec-side overall exit parameter, written from the claim: the minimum
over the three axes of the per-axis maxima. -/
def exitSpec (g : Geom) (r : Ray) : ℚ :=
  min (max (a1Spec g r 0) (anSpec g r 0))
    (min (max (a1Spec g r 1) (anSpec g r 1)) (max (a1Spec g r 2) (anSpec g r 2)))

/-- Concrete voxel grid used by the witnesses and counterexamples: the cube
`[-1, 1]^3` with two cells of size `1` per axis. -/
def gW : Geom where
  Mmin := ![-1, -1, -1]
  Mmax := ![1, 1, 1]
  pshape := ![2, 2, 2]
  cdelt := ![1, 1, 1]

/-- Concrete ray with all direction components nonzero. -/
def rW : Ray where
  M := ![-3, -1/2, -1/2]
  u := ![1, 1/2, 1/2]

/-- Concrete ray with zero direction components on axes 0 and 2, origin
strictly inside both corresponding slabs. -/
def rW4 : Ray where
  M := ![0, -3, 0]
  u := ![0, 1, 0]

/-- Concrete ray with a zero direction component on axis 2 and origin
exactly on the `Mmin` face of that axis. -/
def rCx : Ray where
  M := ![0, 0, -1]
  u := ![1, 1, 0]

/-- Concrete ray whose entry point into `gW` has a zero coordinate on
axis 0 while its direction there is negative. -/
def rC3 : Ray where
  M := ![1, 2, 0]
  u := ![-1, -1, 0]

theorem fdiv_of_ne_zero (a b : ℚ) (hb : b ≠ 0) : fdiv a b = FV.fin (a / b) := by
  simp [fdiv, hb]

theorem flt_fin (a b : ℚ) : flt (FV.fin a) (FV.fin b) = decide (a < b) := rfl

theorem compare_fin (a b : ℚ) :
    compare (FV.fin a) (FV.fin b) = (FV.fin (min a b), FV.fin (max a b)) := by
  by_cases h : a < b
  · simp [compare, flt, h, min_eq_left h.le, max_eq_right h.le]
  · push_neg at h
    simp [compare, flt, not_lt.2 h, min_eq_right h, max_eq_left h]

theorem max3_fin (a b c : ℚ) :
    max3 (FV.fin a) (FV.fin b) (FV.fin c) = FV.fin (max a (max b c)) := by
  simp only [max3, flt, fge, feq, Bool.and_eq_true, Bool.or_eq_true,
    decide_eq_true_eq]
  split_ifs with h1 h2
  · obtain ⟨h1a, h1b⟩ := h1
    have hab : a ≤ b := by
      rcases h1a with h | h
      · exact h.le
      · exact h.ge
    rw [max_eq_left h1b.le, max_eq_right hab]
  · rw [max_eq_left (max_le h2.1.le h2.2.le)]
  · push_neg at h1 h2
    rcases lt_or_le b a with h | h
    · have hac : a ≤ c := h2 h
      rw [max_eq_right (h.le.trans hac), max_eq_right hac]
    · have hbc : b ≤ c := by
        apply h1
        rcases eq_or_lt_of_le h with e | l
        · exact Or.inr e.symm
        · exact Or.inl l
      rw [max_eq_right hbc, max_eq_right (h.trans hbc)]

theorem min3_fin (a b c : ℚ) :
    min3 (FV.fin a) (FV.fin b) (FV.fin c) = FV.fin (min a (min b c)) := by
  simp only [min3, flt, fle, feq, Bool.and_eq_true, Bool.or_eq_true,
    decide_eq_true_eq]
  split_ifs with h1 h2
  · obtain ⟨h1a, h1b⟩ := h1
    have hba : b ≤ a := by
      rcases h1a with h | h
      · exact h.le
      · exact h.le
    rw [min_eq_left h1b.le, min_eq_right hba]
  · rw [min_eq_left (le_min h2.1.le h2.2.le)]
  · push_neg at h1 h2
    rcases lt_or_le a b with h | h
    · have hca : c ≤ a := h2 h
      rw [min_eq_right (hca.trans h.le), min_eq_right hca]
    · have hcb : c ≤ b := by
        apply h1
        rcases eq_or_lt_of_le h with e | l
        · exact Or.inr e
        · exact Or.inl l
      rw [min_eq_right hcb, min_eq_right (hcb.trans h)]

theorem max3_cases (x y z : FV) :
    max3 x y z = y ∨ max3 x y z = x ∨ max3 x y z = z := by
  unfold max3
  split_ifs <;> simp

theorem min3_cases (x y z : FV) :
    min3 x y z = y ∨ min3 x y z = x ∨ min3 x y z = z := by
  unfold min3
  split_ifs <;> simp

theorem compare_fst_cases (a b : FV) :
    (compare a b).1 = a ∨ (compare a b).1 = b := by
  unfold compare
  split_ifs <;> simp

theorem compare_snd_cases (a b : FV) :
    (compare a b).2 = a ∨ (compare a b).2 = b := by
  unfold compare
  split_ifs <;> simp

theorem mul_transpose_eq_one {A B : Matrix (Fin 3) (Fin 3) ℝ}
    (hA : A * Aᵀ = 1) (hB : B * Bᵀ = 1) : (A * B) * (A * B)ᵀ = 1 := by
  rw [Matrix.transpose_mul, Matrix.mul_assoc, ← Matrix.mul_assoc B, hB,
    Matrix.one_mul, hA]

theorem transpose_explicit (a b c d e f g h i : ℝ) :
    (!![a, b, c; d, e, f; g, h, i])ᵀ = !![a, d, g; b, e, h; c, f, i] := by
  ext x y
  fin_cases x <;> fin_cases y <;> rfl

theorem rotation_matrix_factor (cl sl ct st cr sr : ℝ) :
    rotation_matrix cl sl ct st cr sr = rotZ cl sl * (rotY ct st * rotX cr sr) := by
  rw [rotation_matrix, rotZ, rotY, rotX, mul_fin_three, mul_fin_three]
  ext x y
  fin_cases x <;> fin_cases y <;>
    simp [Matrix.vecHead, Matrix.vecTail] <;>
    ring

theorem rotZ_mul_transpose (c s : ℝ) (h : c ^ 2 + s ^ 2 = 1) :
    rotZ c s * (rotZ c s)ᵀ = 1 := by
  rw [rotZ, transpose_explicit, mul_fin_three, one_fin_three]
  ext x y
  fin_cases x <;> fin_cases y <;>
    simp [Matrix.vecHead, Matrix.vecTail] <;>
    first
      | linear_combination h
      | linear_combination (0 : ℝ) * h

theorem rotY_mul_transpose (c s : ℝ) (h : c ^ 2 + s ^ 2 = 1) :
    rotY c s * (rotY c s)ᵀ = 1 := by
  rw [rotY, transpose_explicit, mul_fin_three, one_fin_three]
  ext x y
  fin_cases x <;> fin_cases y <;>
    simp [Matrix.vecHead, Matrix.vecTail] <;>
    first
      | linear_combination h
      | linear_combination (0 : ℝ) * h

theorem rotX_mul_transpose (c s : ℝ) (h : c ^ 2 + s ^ 2 = 1) :
    rotX c s * (rotX c s)ᵀ = 1 := by
  rw [rotX, transpose_explicit, mul_fin_three, one_fin_three]
  ext x y
  fin_cases x <;> fin_cases y <;>
    simp [Matrix.vecHead, Matrix.vecTail] <;>
    first
      | linear_combination h
      | linear_combination (0 : ℝ) * h

theorem rotZ_det (c s : ℝ) (h : c ^ 2 + s ^ 2 = 1) : (rotZ c s).det = 1 := by
  rw [rotZ, det_fin_three]
  simp [Matrix.vecHead, Matrix.vecTail]
  linear_combination h

theorem rotY_det (c s : ℝ) (h : c ^ 2 + s ^ 2 = 1) : (rotY c s).det = -1 := by
  rw [rotY, det_fin_three]
  simp [Matrix.vecHead, Matrix.vecTail]
  linear_combination (-1 : ℝ) * h

theorem rotX_det (c s : ℝ) (h : c ^ 2 + s ^ 2 = 1) : (rotX c s).det = 1 := by
  rw [rotX, det_fin_three]
  simp [Matrix.vecHead, Matrix.vecTail]
  linear_combination h

theorem rotation_matrix_props (cl sl ct st cr sr : ℝ)
    (h1 : cl ^ 2 + sl ^ 2 = 1) (h2 : ct ^ 2 + st ^ 2 = 1)
    (h3 : cr ^ 2 + sr ^ 2 = 1) :
    rotation_matrix cl sl ct st cr sr * (rotation_matrix cl sl ct st cr sr)ᵀ = 1 ∧
    (rotation_matrix cl sl ct st cr sr).det = -1 := by
  constructor
  · rw [rotation_matrix_factor]
    exact mul_transpose_eq_one (rotZ_mul_transpose _ _ h1)
      (mul_transpose_eq_one (rotY_mul_transpose _ _ h2)
        (rotX_mul_transpose _ _ h3))
  · rw [rotation_matrix_factor, Matrix.det_mul, Matrix.det_mul,
      rotZ_det _ _ h1, rotY_det _ _ h2, rotX_det _ _ h3]
    norm_num

/-- C1: for every grid `x` and measurement vector `y` on the same ray
geometry and obstacle configuration (the shared weight matrix `w`), the
inner product of `project x` with `y` equals the inner product of `x` with
`backproject y`: the backprojector is the exact matrix transpose of the
projector. -/
theorem C1_adjointness (nr nv : ℕ) (w : Fin nr → Fin nv → ℚ)
    (x : Fin nv → ℚ) (y : Fin nr → ℚ) :
    dotv nr (project nr nv w x) y = dotv nv x (backproject nr nv w y) := by
  simp only [dotv, project, backproject, Finset.sum_mul, Finset.mul_sum]
  rw [Finset.sum_comm]
  exact Finset.sum_congr rfl fun v _ => Finset.sum_congr rfl fun r _ => by ring

/-- C8: for every grid header, `map_borders` derives exactly
`pshape_k = CDELT_k * NAXIS_k`, `Mmin_k = -CRPIX_k * CDELT_k` and
`Mmax_k = Mmin_k + pshape_k`, stores the three derived arrays in the
header, and leaves the input keywords unchanged. -/
theorem C8_map_borders (h : MapHeader) (k : Fin 3) :
    (map_borders h).pshape k = h.cdelt k * h.naxis k ∧
    (map_borders h).Mmin k = -h.crpix k * h.cdelt k ∧
    (map_borders h).Mmax k = (map_borders h).Mmin k + (map_borders h).pshape k ∧
    (map_borders h).cdelt k = h.cdelt k ∧
    (map_borders h).crpix k = h.crpix k ∧
    (map_borders h).naxis k = h.naxis k := by
  simp [map_borders]

/-- C9: whenever the dtypes of `data` and `cube` differ, both `projector`
and `backprojector` raise the `ValueError` before dispatching to any
traversal kernel (the result does not depend on the kernel), and both
arrays are returned with dtype and contents unchanged: no implicit
coercion happens. -/
theorem C9_dtype_mismatch (kern kern2 : PArr → PArr → PArr) (data cube : PArr)
    (h : data.dtype ≠ cube.dtype) :
    projector kern data cube = (some dtypeErr, data, cube) ∧
    backprojector kern2 data cube = (some dtypeErr, data, cube) := by
  simp [projector, backprojector, h]

/-- Witness for C9 at a concrete float32 data array and float64 cube. -/
theorem C9_dtype_mismatch_witness :
    dataW.dtype ≠ cubeW.dtype ∧
    projector (fun a _ => a) dataW cubeW = (some dtypeErr, dataW, cubeW) :=
  ⟨by decide, (C9_dtype_mismatch (fun a _ => a) (fun a _ => a) dataW cubeW
    (by decide)).1⟩

/-- C10: on real (non-`nan`) inputs, `max3` returns the elementwise maximum
of its three arguments and `min3` the elementwise minimum, ties included
(the statement quantifies over all rationals, so two- and three-way ties
are covered). -/
theorem C10_max3_min3 (x y z : ℚ) :
    max3 (FV.fin x) (FV.fin y) (FV.fin z) = FV.fin (max x (max y z)) ∧
    min3 (FV.fin x) (FV.fin y) (FV.fin z) = FV.fin (min x (min y z)) :=
  ⟨max3_fin x y z, min3_fin x y z⟩

/-- Counterexample to C7 as stated: at `lon = lat = rol = 0` the matrix
built by `rotation_matrix` is `diag(-1, 1, 1)`, whose determinant is `-1`,
not `1`. -/
theorem C7_counterexample :
    (rotation_matrix (Real.cos 0) (Real.sin 0) (Real.cos 0) (Real.sin 0)
      (Real.cos 0) (Real.sin 0)).det ≠ 1 := by
  rw [Real.cos_zero, Real.sin_zero, rotation_matrix, det_fin_three]
  norm_num

/-- C7 (amended): for every triple of angles, the matrix `R` built by
`rotation_matrix` from their cosines and sines satisfies `R * Rᵀ = 1`
exactly, and `det R = -1` (not `+1`: the pose matrix composes the three
rotations with a fixed reflection, so it is orthogonal but
orientation-reversing). -/
theorem C7_rotation_orthonormal (lon lat rol : ℝ) :
    rotation_matrix (Real.cos lon) (Real.sin lon) (Real.cos lat)
        (Real.sin lat) (Real.cos rol) (Real.sin rol) *
      (rotation_matrix (Real.cos lon) (Real.sin lon) (Real.cos lat)
        (Real.sin lat) (Real.cos rol) (Real.sin rol))ᵀ = 1 ∧
    (rotation_matrix (Real.cos lon) (Real.sin lon) (Real.cos lat)
        (Real.sin lat) (Real.cos rol) (Real.sin rol)).det = -1 :=
  rotation_matrix_props _ _ _ _ _ _ (Real.cos_sq_add_sin_sq lon)
    (Real.cos_sq_add_sin_sq lat) (Real.cos_sq_add_sin_sq rol)

/-- C2: for every ray whose direction is nonzero on all three axes,
`intersect_cube` computes `a1_k = (Mmin_k - M_k)/u_k` and
`an_k = (Mmax_k - M_k)/u_k`, orders each pair into its minimum and maximum
(keeping order when `a1_k < an_k`, swapping otherwise, which `compare`
realizes and the `min`/`max` values express), takes the overall entry as
the maximum of the per-axis minima and the overall exit as the minimum of
the per-axis maxima, and flags the ray as intersecting iff entry < exit. -/
theorem C2_box_intersection (g : Geom) (r : Ray) (hu : ∀ k, r.u k ≠ 0) :
    (∀ k, a1F g r k = FV.fin (a1Spec g r k)) ∧
    (∀ k, anF g r k = FV.fin (anSpec g r k)) ∧
    (∀ k, iminF g r k = FV.fin (min (a1Spec g r k) (anSpec g r k))) ∧
    (∀ k, imaxF g r k = FV.fin (max (a1Spec g r k) (anSpec g r k))) ∧
    (intersect_cube g r).2.2.2 = FV.fin (entrySpec g r) ∧
    amaxF g r = FV.fin (exitSpec g r) ∧
    (intersect_cube g r).1 = decide (entrySpec g r < exitSpec g r) := by
  have ha1 : ∀ k, a1F g r k = FV.fin (a1Spec g r k) := fun k =>
    fdiv_of_ne_zero _ _ (hu k)
  have han : ∀ k, anF g r k = FV.fin (anSpec g r k) := fun k =>
    fdiv_of_ne_zero _ _ (hu k)
  have hmin : ∀ k, iminF g r k = FV.fin (min (a1Spec g r k) (anSpec g r k)) := by
    intro k
    rw [iminF, ha1 k, han k, compare_fin]
  have hmax : ∀ k, imaxF g r k = FV.fin (max (a1Spec g r k) (anSpec g r k)) := by
    intro k
    rw [imaxF, ha1 k, han k, compare_fin]
  have hamin : aminF g r = FV.fin (entrySpec g r) := by
    rw [aminF, hmin 0, hmin 1, hmin 2, max3_fin]
    rfl
  have hamax : amaxF g r = FV.fin (exitSpec g r) := by
    rw [amaxF, hmax 0, hmax 1, hmax 2, min3_fin]
    rfl
  refine ⟨ha1, han, hmin, hmax, hamin, hamax, ?_⟩
  show flt (aminF g r) (amaxF g r) = _
  rw [hamin, hamax, flt_fin]

/-- Witness for C2 on the concrete ray `rW` through the grid `gW`. -/
theorem C2_box_intersection_witness :
    rW.u 0 ≠ 0 ∧ (intersect_cube gW rW).2.2.2 = FV.fin (entrySpec gW rW) :=
  ⟨by norm_num [rW], (C2_box_intersection gW rW
    (by intro k; fin_cases k <;> norm_num [rW])).2.2.2.2.1⟩

/-- C4 (amended): for every ray whose zero-direction axes all have the
origin strictly inside the corresponding slab, each such axis contributes
`-inf` as per-axis minimum and `+inf` as per-axis maximum — so it never
binds the reductions — and no `nan` reaches the overall entry parameter,
exit parameter or intersection flag.  (As stated the claim fails: when the
origin lies exactly on a face of a zero-direction axis, `0/0 = nan` enters
the reduction, see the counterexample.) -/
theorem C4_zero_axis_safety (g : Geom) (r : Ray)
    (h0 : ∀ k, r.u k = 0 → g.Mmin k < r.M k ∧ r.M k < g.Mmax k) :
    (∀ k, r.u k = 0 → iminF g r k = FV.ninf ∧ imaxF g r k = FV.pinf) ∧
    aminF g r ≠ FV.nan ∧ amaxF g r ≠ FV.nan ∧
    (intersect_cube g r).1 = flt (aminF g r) (amaxF g r) := by
  have hz : ∀ k, r.u k = 0 → iminF g r k = FV.ninf ∧ imaxF g r k = FV.pinf := by
    intro k hk
    obtain ⟨hlo, hhi⟩ := h0 k hk
    have hlt : g.Mmin k - r.M k < 0 := sub_neg.2 hlo
    have ha1 : a1F g r k = FV.ninf := by
      rw [a1F, hk]
      simp [fdiv, hlt, asymm hlt]
    have han : anF g r k = FV.pinf := by
      rw [anF, hk]
      simp [fdiv, sub_pos.2 hhi]
    constructor
    · rw [iminF, ha1, han]
      rfl
    · rw [imaxF, ha1, han]
      rfl
  have hmins : ∀ k, iminF g r k ≠ FV.nan := by
    intro k
    by_cases hk : r.u k = 0
    · rw [(hz k hk).1]
      exact fun h => nomatch h
    · rw [iminF, a1F, anF, fdiv_of_ne_zero _ _ hk, fdiv_of_ne_zero _ _ hk,
        compare_fin]
      exact fun h => nomatch h
  have hmaxs : ∀ k, imaxF g r k ≠ FV.nan := by
    intro k
    by_cases hk : r.u k = 0
    · rw [(hz k hk).2]
      exact fun h => nomatch h
    · rw [imaxF, a1F, anF, fdiv_of_ne_zero _ _ hk, fdiv_of_ne_zero _ _ hk,
        compare_fin]
      exact fun h => nomatch h
  refine ⟨hz, ?_, ?_, rfl⟩
  · rw [aminF]
    rcases max3_cases (iminF g r 0) (iminF g r 1) (iminF g r 2) with h | h | h <;>
      rw [h]
    · exact hmins 1
    · exact hmins 0
    · exact hmins 2
  · rw [amaxF]
    rcases min3_cases (imaxF g r 0) (imaxF g r 1) (imaxF g r 2) with h | h | h <;>
      rw [h]
    · exact hmaxs 1
    · exact hmaxs 0
    · exact hmaxs 2

/-- Witness for C4 (amended) on the ray `rW4`, which is axis-aligned with
two zero direction components. -/
theorem C4_zero_axis_safety_witness :
    rW4.u 0 = 0 ∧ aminF gW rW4 ≠ FV.nan :=
  ⟨by norm_num [rW4], (C4_zero_axis_safety gW rW4
    (by intro k; fin_cases k <;> norm_num [gW, rW4])).2.1⟩

/-- Counterexample to C4 as stated: the ray `rCx` has direction component
exactly zero on axis 2, yet the overall exit parameter computed by
`intersect_cube` (through `min3` over the per-axis maxima) is `nan`: its
origin lies exactly on the `Mmin` face of the zero axis, so
`an_2 = 0/0 = nan` and the `nan` lands in the propagating position of
`min3`. -/
theorem C4_counterexample :
    rCx.u 2 = 0 ∧ amaxF gW rCx = FV.nan := by
  refine ⟨by norm_num [rCx], ?_⟩
  norm_num [amaxF, imaxF, Siddon.compare, a1F, anF, fdiv, gW, rCx, min3,
    flt, fle, feq]

/-- C3 evaluation at the failing input: the ray `rC3` is accepted by the
box test, its direction on axis 0 is negative (`sign` would give `-1`),
yet the `update` value computed by `initialize_raytracing` on axis 0 is
`0`, because the source takes `sign(e)` of the entry point instead of
`sign(u)` of the direction. -/
theorem C3_update_sign_eval :
    (intersect_cube gW rC3).1 = true ∧
    (init_raytracing gW rC3 (pF gW rC3) (a1F gW rC3) (aminF gW rC3)).1 0 = 0 ∧
    sign (FV.fin (rC3.u 0)) = -1 := by
  refine ⟨?_, ?_, ?_⟩
  · norm_num [intersect_cube, aminF, amaxF, iminF, imaxF, Siddon.compare,
      a1F, anF, fdiv, gW, rC3, max3, min3, flt, fge, fle, feq]
  · norm_num [init_raytracing, updateF, eF, sign, fadd, fmul, fneg, aminF,
      iminF, Siddon.compare, a1F, anF, fdiv, gW, rC3, max3, flt, fge, feq]
  · norm_num [sign, rC3]

/-- C5: if the entry point `e = M + amin * u` lies inside the grid's
physical box on axis `k` (with positive cell size and consistent derived
geometry, grid shape `n` with `1 ≤ n < 2^32`), then the initial voxel
index computed by `initialize_raytracing` equals
`floor((e_k - Mmin_k)/cdelt_k)` when `e_k < Mmax_k`, equals `n - 1` when
`e_k = Mmax_k` exactly, and in both cases lies inside the grid bounds
`[0, n)`. -/
theorem C5_initial_voxel_index (g : Geom) (r : Ray) (amin : FV) (aq : ℚ)
    (k : Fin 3) (n : ℕ)
    (hm : amin = FV.fin aq)
    (hc : 0 < g.cdelt k)
    (hn1 : 1 ≤ n) (hn2 : n < 2 ^ 32)
    (hps : g.pshape k = g.cdelt k * n)
    (hmax : g.Mmax k = g.Mmin k + g.pshape k)
    (hlo : g.Mmin k ≤ r.M k + aq * r.u k)
    (hhi : r.M k + aq * r.u k ≤ g.Mmax k) :
    ivF g r amin k =
      (if r.M k + aq * r.u k < g.Mmax k
       then (Int.floor ((r.M k + aq * r.u k - g.Mmin k) / g.cdelt k)).toNat
       else n - 1) ∧
    ivF g r amin k < n := by
  have hnpos : (0 : ℚ) < n := by
    exact_mod_cast Nat.cast_pos.2 hn1
  have hP : (0 : ℚ) < g.pshape k := hps ▸ mul_pos hc hnpos
  have heF : eF r amin k = FV.fin (r.M k + aq * r.u k) := by
    rw [eF, hm]
    simp [fmul, fadd]
  have hd0 : (0 : ℚ) ≤ r.M k + aq * r.u k - g.Mmin k := sub_nonneg.2 hlo
  have hsub : fsub (FV.fin (r.M k + aq * r.u k)) (FV.fin (g.Mmin k)) =
      FV.fin (r.M k + aq * r.u k - g.Mmin k) := by
    simp [fsub, fadd, fneg, sub_eq_add_neg]
  have hdiv1 : fdivF (FV.fin (r.M k + aq * r.u k - g.Mmin k)) (g.cdelt k) =
      FV.fin ((r.M k + aq * r.u k - g.Mmin k) / g.cdelt k) := by
    simp [fdivF, fdiv, hc.ne']
  have hdiv2 : fdivF (FV.fin (r.M k + aq * r.u k - g.Mmin k)) (g.pshape k) =
      FV.fin ((r.M k + aq * r.u k - g.Mmin k) / g.pshape k) := by
    simp [fdivF, fdiv, hP.ne']
  have habs1 : fabs (FV.fin ((r.M k + aq * r.u k - g.Mmin k) / g.cdelt k)) =
      FV.fin ((r.M k + aq * r.u k - g.Mmin k) / g.cdelt k) := by
    simp [fabs, abs_of_nonneg (div_nonneg hd0 hc.le)]
  have habs2 : fabs (FV.fin ((r.M k + aq * r.u k - g.Mmin k) / g.pshape k)) =
      FV.fin ((r.M k + aq * r.u k - g.Mmin k) / g.pshape k) := by
    simp [fabs, abs_of_nonneg (div_nonneg hd0 hP.le)]
  have hiv : ivF g r amin k =
      ((Int.floor ((r.M k + aq * r.u k - g.Mmin k) / g.cdelt k)).toNat % 2 ^ 32 +
        (2 ^ 32 -
          (Int.floor ((r.M k + aq * r.u k - g.Mmin k) / g.pshape k)).toNat % 2 ^ 32)) %
        2 ^ 32 := by
    simp only [ivF]
    rw [heF, hsub, hdiv1, habs1, hdiv2, habs2]
    rfl
  have hfl1_nonneg : 0 ≤ Int.floor ((r.M k + aq * r.u k - g.Mmin k) / g.cdelt k) :=
    Int.floor_nonneg.2 (div_nonneg hd0 hc.le)
  have hd_le : r.M k + aq * r.u k - g.Mmin k ≤ g.pshape k := by
    linarith [hhi, hmax.ge]
  rcases lt_or_le (r.M k + aq * r.u k) (g.Mmax k) with hcase | hcase
  · have hd_lt : r.M k + aq * r.u k - g.Mmin k < g.pshape k := by
      rw [hmax] at hcase
      linarith
    have hq1_lt : (r.M k + aq * r.u k - g.Mmin k) / g.cdelt k < n := by
      rw [div_lt_iff₀ hc]
      calc r.M k + aq * r.u k - g.Mmin k < g.pshape k := hd_lt
        _ = g.cdelt k * n := hps
        _ = n * g.cdelt k := mul_comm _ _
    have hfl1_lt : Int.floor ((r.M k + aq * r.u k - g.Mmin k) / g.cdelt k) < n := by
      rw [Int.floor_lt]
      exact_mod_cast hq1_lt
    have ht1_lt : (Int.floor ((r.M k + aq * r.u k - g.Mmin k) / g.cdelt k)).toNat < n := by
      omega
    have hfl2 : Int.floor ((r.M k + aq * r.u k - g.Mmin k) / g.pshape k) = 0 := by
      rw [Int.floor_eq_zero_iff]
      exact ⟨div_nonneg hd0 hP.le, (div_lt_one hP).2 hd_lt⟩
    rw [hiv, hfl2, if_pos hcase]
    constructor <;> omega
  · have he_eq : r.M k + aq * r.u k = g.Mmax k := le_antisymm hhi hcase
    have hdP : r.M k + aq * r.u k - g.Mmin k = g.pshape k := by
      rw [he_eq, hmax]
      ring
    have hq1 : (r.M k + aq * r.u k - g.Mmin k) / g.cdelt k = n := by
      rw [hdP, hps]
      exact mul_div_cancel_left₀ _ hc.ne'
    have hq2 : (r.M k + aq * r.u k - g.Mmin k) / g.pshape k = 1 := by
      rw [hdP, div_self hP.ne']
    have hfl1 : (Int.floor ((r.M k + aq * r.u k - g.Mmin k) / g.cdelt k)).toNat = n := by
      rw [hq1, Int.floor_natCast]
      exact Int.toNat_natCast n
    have hfl2 : (Int.floor ((r.M k + aq * r.u k - g.Mmin k) / g.pshape k)).toNat = 1 := by
      rw [hq2, Int.floor_one]
      rfl
    rw [hiv, hfl1, hfl2, if_neg (not_lt.2 hcase)]
    constructor <;> omega

/-- Witness for C5 on the concrete ray `rW` entering the grid `gW` at
parameter `2`. -/
theorem C5_initial_voxel_index_witness :
    (0 : ℚ) < gW.cdelt 0 ∧ gW.Mmin 0 ≤ rW.M 0 + 2 * rW.u 0 ∧
    ivF gW rW (FV.fin 2) 0 < 2 :=
  ⟨by norm_num [gW], by norm_num [gW, rW],
    (C5_initial_voxel_index gW rW (FV.fin 2) 2 0 2 rfl (by norm_num [gW])
      (by norm_num) (by norm_num) (by norm_num [gW]) (by norm_num [gW])
      (by norm_num [gW, rW]) (by norm_num [gW, rW])).2⟩

/-- C6 (amended): `initialize_raytracing` computes each axis's
distance-to-next-boundary as `D_k = next_k * p_k + a1_k - entry_param` with
`next_k = iv_k + (update_k + 1)/2`, set to `+inf` where `update_k = 0`, and
replaces every `nan` by `+inf` — so no returned `D_k` is `nan`, and on an
axis with `update_k ≠ 0` and finite `p_k`, `a1_k`, entry parameter the
formula holds exactly.  (As stated the claim fails: `D_k` can be
`-infinity`, see the counterexample.) -/
theorem C6_distance_to_boundary (g : Geom) (r : Ray) (k : Fin 3)
    (pq a1q aminq : ℚ)
    (hp : pF g r k = FV.fin pq) (ha : a1F g r k = FV.fin a1q)
    (hm : aminF g r = FV.fin aminq)
    (hu : updateF r (aminF g r) k ≠ 0) :
    (∀ j, (init_raytracing g r (pF g r) (a1F g r) (aminF g r)).2.2 j ≠ FV.nan) ∧
    (init_raytracing g r (pF g r) (a1F g r) (aminF g r)).2.2 k =
      FV.fin (((ivF g r (aminF g r) k : ℚ) +
        ((updateF r (aminF g r) k : ℚ) + 1) / 2) * pq + a1q - aminq) := by
  constructor
  · intro j
    show DF g r (pF g r) (a1F g r) (aminF g r) j ≠ FV.nan
    rw [DF]
    split_ifs with h
    · exact fun hh => nomatch hh
    · exact h
  · show DF g r (pF g r) (a1F g r) (aminF g r) k = _
    have hnext : nextF g r (aminF g r) k =
        FV.fin ((ivF g r (aminF g r) k : ℚ) +
          ((updateF r (aminF g r) k : ℚ) + 1) / 2) := by
      rw [nextF, if_neg hu]
    simp only [DF]
    rw [hnext, hp, ha, hm]
    simp only [fsub, fneg, fadd, fmul]
    rw [if_neg (fun h => FV.noConfusion h)]
    congr 1
    ring

/-- Witness for C6 (amended) on the ray `rW` through the grid `gW`. -/
theorem C6_distance_to_boundary_witness :
    updateF rW (aminF gW rW) 0 ≠ 0 ∧
    (init_raytracing gW rW (pF gW rW) (a1F gW rW) (aminF gW rW)).2.2 0 =
      FV.fin (((ivF gW rW (aminF gW rW) 0 : ℚ) +
        ((updateF rW (aminF gW rW) 0 : ℚ) + 1) / 2) * 2 + 2 - 2) := by
  have hamin : aminF gW rW = FV.fin 2 := by
    norm_num [aminF, iminF, Siddon.compare, a1F, anF, fdiv, gW, rW, max3,
      flt, fge, feq]
  have hupd : updateF rW (aminF gW rW) 0 ≠ 0 := by
    rw [hamin]
    norm_num [updateF, eF, sign, fadd, fmul, gW, rW]
  exact ⟨hupd, (C6_distance_to_boundary gW rW 0 2 2 2
    (by norm_num [pF, fdiv, gW, rW])
    (by norm_num [a1F, fdiv, gW, rW]) hamin hupd).2⟩

/-- Counterexample to C6 as stated: for the ray `rC3`, accepted by the box
test, the distance-to-next-boundary on axis 0 returned by
`initialize_raytracing` is `-infinity` (not a finite real and not
`+infinity`): the axis has `update_0 = 0` with `p_0 = -2 < 0`, so
`next_0 * p_0 = -inf`, which is not `nan` and survives the `nan`
replacement. -/
theorem C6_counterexample :
    (intersect_cube gW rC3).1 = true ∧
    (init_raytracing gW rC3 (pF gW rC3) (a1F gW rC3) (aminF gW rC3)).2.2 0 =
      FV.ninf := by
  constructor
  · norm_num [intersect_cube, aminF, amaxF, iminF, imaxF, Siddon.compare,
      a1F, anF, fdiv, gW, rC3, max3, min3, flt, fge, fle, feq]
  · norm_num [init_raytracing, DF, nextF, updateF, eF, ivF, sign, toU32,
      fabs, fdivF, fsub, fadd, fmul, fneg, aminF, iminF, Siddon.compare,
      a1F, anF, pF, fdiv, gW, rC3, max3, flt, fge, feq]
    exact fun h => nomatch h

end Siddon
